import Mathlib

/-! Verification of the deal-detection and task-scheduling engine of the
amazon-deal-monitor repository. Conventions of the embedding: `decimal.js`
exact-decimal values are modelled as rationals (`ℚ`); plain JS numbers that
the engine only compares or combines arithmetically (margin, roi, rating,
priority) are modelled as `ℚ` or `ℤ`/`ℕ` as appropriate; `Date` values are
modelled as natural-number timestamps supplied explicitly to the operations
that call `new Date()`; JS `Map`s are modelled as association lists with
map-style get/set/delete operations. Fields of source records that no
embedded operation consults (titles, URLs, image links, log strings) are
omitted. -/

namespace DealMonitor

/-- MarketplaceCode from src/models/product.ts: 'DE' | 'FR' | 'IT' | 'ES'. -/
inductive MarketplaceCode
  | DE
  | FR
  | IT
  | ES
deriving DecidableEq, Repr

/-- FulfillmentType from src/models/deal.ts: 'FBA' | 'FBM'. -/
inductive FulfillmentType
  | FBA
  | FBM
deriving DecidableEq, Repr

/-- Package dimensions (length, width, height in cm), decimal-valued. -/
structure Dimensions where
  length : ℚ
  width : ℚ
  height : ℚ
deriving DecidableEq, Repr

/-- FeeCalculationParams from src/analyzer/fee-calculator.ts. The optional
`isMedia?: boolean` is modelled as `Bool` (JS `undefined` behaves as `false`
in every use site). -/
structure FeeCalculationParams where
  salePrice : ℚ
  category : String
  fulfillmentType : FulfillmentType
  marketplace : MarketplaceCode
  productWeight : Option ℚ
  productDimensions : Option Dimensions
  isMedia : Bool
deriving DecidableEq, Repr

/-- FeeBreakdown from src/models/deal.ts: exactly the six fields returned by
`calculateFees` (note: no closing-fee field). -/
structure FeeBreakdown where
  referralFee : ℚ
  fulfillmentFee : ℚ
  storageFee : ℚ
  vat : ℚ
  shippingCost : ℚ
  total : ℚ
deriving DecidableEq, Repr

/-- FeeCalculator.REFERRAL_FEES table (category → referral rate). -/
def REFERRAL_FEES : List (String × ℚ) :=
  [("default", 15/100),
   ("Consumer Electronics", 8/100),
   ("Computers", 7/100),
   ("Camera & Photo", 8/100),
   ("Home & Garden", 15/100),
   ("Toys & Games", 15/100),
   ("Sports & Outdoors", 15/100),
   ("Books", 15/100),
   ("Music", 15/100),
   ("DVD & Blu-ray", 15/100),
   ("Software", 15/100),
   ("Video Games", 15/100),
   ("Kitchen", 15/100),
   ("Pet Supplies", 15/100),
   ("Baby", 15/100),
   ("Health & Personal Care", 15/100),
   ("Beauty", 15/100),
   ("Clothing", 17/100),
   ("Shoes & Jewelry", 17/100),
   ("Watches", 16/100),
   ("Automotive", 12/100),
   ("Tools & Home Improvement", 15/100),
   ("Grocery", 15/100)]

/-- `REFERRAL_FEES[category] || REFERRAL_FEES.default`: lookup with fallback
to the default 15% rate (no listed rate is falsy, so `||` only catches a
missing key). -/
def referralFeeRate (category : String) : ℚ :=
  (REFERRAL_FEES.lookup category).getD (15/100)

/-- FeeCalculator.VAT_RATES per marketplace. -/
def VAT_RATES : MarketplaceCode → ℚ
  | .DE => 19/100
  | .FR => 20/100
  | .IT => 22/100
  | .ES => 21/100

/-- FeeCalculator.CLOSING_FEES per marketplace (0.99 everywhere). -/
def CLOSING_FEES : MarketplaceCode → ℚ
  | .DE => 99/100
  | .FR => 99/100
  | .IT => 99/100
  | .ES => 99/100

/-- FeeRates.fbaFees record shape. -/
structure FbaFees where
  smallStandard : ℚ
  standard : ℚ
  largeStandard : ℚ
  specialOversize : ℚ
deriving DecidableEq, Repr

/-- FeeCalculator.FBA_FEES per marketplace (identical for all four). -/
def FBA_FEES : MarketplaceCode → FbaFees
  | .DE => ⟨250/100, 322/100, 475/100, 850/100⟩
  | .FR => ⟨250/100, 322/100, 475/100, 850/100⟩
  | .IT => ⟨250/100, 322/100, 475/100, 850/100⟩
  | .ES => ⟨250/100, 322/100, 475/100, 850/100⟩

/-- FeeCalculator.FBA_WEIGHT_FEE: 0.42 per kg above the first kg. -/
def FBA_WEIGHT_FEE : ℚ := 42/100

/-- Weight guard of the small-standard tier:
`weight?.lte(1) ?? true` (undefined weight passes). -/
def weightLeOne : Option ℚ → Bool
  | some w => decide (w ≤ 1)
  | none => true

/-- FeeCalculator.calculateFBAFee. The source computes the median and
shortest package edge by sorting the three edges ascending; the embedded
`min`/median/`max` expressions compute the same three order statistics. -/
def calculateFBAFee (marketplace : MarketplaceCode) (weight : Option ℚ)
    (dims : Option Dimensions) : ℚ :=
  let fbaFees := FBA_FEES marketplace
  let baseFee :=
    match dims with
    | none => fbaFees.standard
    | some d =>
      let volume := d.length * d.width * d.height
      let longestSide := max d.length (max d.width d.height)
      let shortestSide := min d.length (min d.width d.height)
      let medianSide := d.length + d.width + d.height - longestSide - shortestSide
      if volume ≤ 1600 ∧ longestSide ≤ 45 ∧ medianSide ≤ 35 ∧ shortestSide ≤ 20 ∧
          weightLeOne weight then fbaFees.smallStandard
      else if longestSide ≤ 61 ∧ medianSide ≤ 46 ∧ shortestSide ≤ 46 then fbaFees.standard
      else if longestSide ≤ 120 ∧ medianSide ≤ 60 ∧ shortestSide ≤ 60 then fbaFees.largeStandard
      else fbaFees.specialOversize
  let weightFee :=
    match weight with
    | some w => if w > 1 then (w - 1) * FBA_WEIGHT_FEE else 0
    | none => 0
  baseFee + weightFee

/-- FeeCalculator.calculateStorageFee. -/
def calculateStorageFee (fulfillmentType : FulfillmentType)
    (dims : Option Dimensions) : ℚ :=
  if fulfillmentType ≠ .FBA then 0
  else
    match dims with
    | some d => d.length * d.width * d.height / 1000000 * (26/100)
    | none => 10/100

/-- FeeCalculator.calculateShippingCost (FBM only; dimensions parameter is
accepted but unused, as in the source). -/
def calculateShippingCost (weight : Option ℚ) (_dims : Option Dimensions) : ℚ :=
  match weight with
  | some w => if w > 1/2 then 350/100 + (w - 1/2) * (150/100) else 350/100
  | none => 350/100

/-- FeeCalculator.calculateFees: the closing fee (media items only) is added
into `total` but is not one of the returned breakdown fields. -/
def calculateFees (p : FeeCalculationParams) : FeeBreakdown :=
  let referralFee := p.salePrice * referralFeeRate p.category
  let closingFee := if p.isMedia then CLOSING_FEES p.marketplace else 0
  let fulfillmentFee :=
    if p.fulfillmentType = .FBA then
      calculateFBAFee p.marketplace p.productWeight p.productDimensions
    else 0
  let storageFee := calculateStorageFee p.fulfillmentType p.productDimensions
  let vat := p.salePrice * VAT_RATES p.marketplace
  let shippingCost :=
    if p.fulfillmentType = .FBM then
      calculateShippingCost p.productWeight p.productDimensions
    else 0
  let total := referralFee + closingFee + fulfillmentFee + storageFee + vat + shippingCost
  { referralFee, fulfillmentFee, storageFee, vat, shippingCost, total }

/-- DealMetrics from src/models/deal.ts. `margin` and `roi` are JS numbers in
the source (`Decimal.toNumber()`); they are modelled as exact rationals. -/
structure DealMetrics where
  salePrice : ℚ
  costPrice : ℚ
  totalFees : ℚ
  profit : ℚ
  margin : ℚ
  roi : ℚ
deriving DecidableEq, Repr

/-- DealAnalyzer.calculateMetrics (src/analyzer/analyzer.ts). -/
def calculateMetrics (salePrice costPrice totalFees : ℚ) : DealMetrics :=
  let profit := salePrice - costPrice - totalFees
  let margin := if salePrice > 0 then profit / salePrice * 100 else 0
  let roi := if costPrice > 0 then profit / costPrice * 100 else 0
  { salePrice, costPrice, totalFees, profit, margin, roi }

/-- Modelled from the spec: DealMetrics per §3 of the specification —
`profit = salePrice − costPrice − totalFees`, `marginPct = profit/salePrice×100`
(0 if `salePrice ≤ 0`), `roiPct = profit/costPrice×100` (0 if `costPrice ≤ 0`). -/
def specDealMetrics (salePrice costPrice totalFees : ℚ) : DealMetrics :=
  let profit := salePrice - costPrice - totalFees
  { salePrice, costPrice, totalFees, profit,
    margin := if salePrice ≤ 0 then 0 else profit / salePrice * 100,
    roi := if costPrice ≤ 0 then 0 else profit / costPrice * 100 }

/-- DealTier from src/models/deal.ts: 'low' | 'medium' | 'high'. -/
inductive DealTier
  | low
  | medium
  | high
deriving DecidableEq, Repr

/-- DealTierConfig from src/models/deal.ts, restricted to the four bound
fields that `DealClassifier.checkTier` consults (display/notification fields
are omitted). -/
structure DealTierConfig where
  minMargin : ℚ
  maxMargin : Option ℚ
  minRoi : ℚ
  maxRoi : Option ℚ
deriving DecidableEq, Repr

/-- The `Record<DealTier, DealTierConfig>` map held by DealClassifier. -/
structure TierConfigs where
  high : DealTierConfig
  medium : DealTierConfig
  low : DealTierConfig
deriving DecidableEq, Repr

/-- ClassificationResult from src/analyzer/deal-classifier.ts, minus the
human-readable `reasons` strings (built with float `toFixed` formatting,
not consulted by any control flow). -/
structure ClassificationResult where
  tier : DealTier
  qualifies : Bool
deriving DecidableEq, Repr

/-- Guard `config.maxX !== undefined && x > config.maxX` used by checkTier. -/
def exceedsMax (x : ℚ) : Option ℚ → Bool
  | some m => decide (x > m)
  | none => false

/-- DealClassifier.checkTier for one tier configuration; the source reads
`margin`/`roi` out of `deal.metrics`, passed here directly. -/
def checkTier (cfg : DealTierConfig) (margin roi : ℚ) : Bool :=
  if margin < cfg.minMargin then false
  else if exceedsMax margin cfg.maxMargin then false
  else if roi < cfg.minRoi then false
  else if exceedsMax roi cfg.maxRoi then false
  else true

/-- DealClassifier.classify: check high, then medium, then low, else the
non-qualifying low fallback. -/
def classify (cfgs : TierConfigs) (margin roi : ℚ) : ClassificationResult :=
  if checkTier cfgs.high margin roi then ⟨.high, true⟩
  else if checkTier cfgs.medium margin roi then ⟨.medium, true⟩
  else if checkTier cfgs.low margin roi then ⟨.low, true⟩
  else ⟨.low, false⟩

/-- Modelled from the spec: a tier band is satisfied iff
`margin ≥ minMargin AND (maxMargin undefined OR margin ≤ maxMargin) AND
roi ≥ minRoi AND (maxRoi undefined OR roi ≤ maxRoi)` (§4.2). -/
def bandSatisfied (cfg : DealTierConfig) (margin roi : ℚ) : Bool :=
  decide (cfg.minMargin ≤ margin) &&
  (match cfg.maxMargin with | some m => decide (margin ≤ m) | none => true) &&
  decide (cfg.minRoi ≤ roi) &&
  (match cfg.maxRoi with | some m => decide (roi ≤ m) | none => true)

/-- Modelled from the spec: classification per §4.2 — evaluate the bands in
the fixed priority order high → medium → low, first satisfied band wins and
qualifies; when no band is satisfied the result is the lowest tier marked
non-qualifying. -/
def classifySpec (cfgs : TierConfigs) (margin roi : ℚ) : ClassificationResult :=
  if bandSatisfied cfgs.high margin roi then ⟨.high, true⟩
  else if bandSatisfied cfgs.medium margin roi then ⟨.medium, true⟩
  else if bandSatisfied cfgs.low margin roi then ⟨.low, true⟩
  else ⟨.low, false⟩

/-- ProductData from src/models/product.ts, restricted to the fields the
embedded operations consult (title, currency, availability, reviewCount,
seller, prime flag, URLs and timestamp are never read by them). -/
structure ProductData where
  asin : String
  marketplace : MarketplaceCode
  price : ℚ
  rating : ℚ
  salesRank : ℕ
deriving DecidableEq, Repr

/-- Deal from src/models/deal.ts. The generated `id` (uuid v4) and
`detectedAt` (wall clock) are environment-produced values never consulted by
the embedded operations and are omitted. -/
structure Deal where
  product : ProductData
  metrics : DealMetrics
  feeBreakdown : FeeBreakdown
  tier : DealTier
  fulfillmentType : FulfillmentType
deriving DecidableEq, Repr

/-- AnalysisOptions from src/analyzer/analyzer.ts; `category` defaults to
"default" and `isMedia` to false at the destructuring site. -/
structure AnalysisOptions where
  costPrice : ℚ
  fulfillmentType : FulfillmentType
  category : Option String
  productWeight : Option ℚ
  productDimensions : Option Dimensions
  isMedia : Bool
deriving DecidableEq, Repr

/-- DealAnalyzer.analyze: fees, then metrics, then classification sets the
tier on the freshly built deal. -/
def analyze (cfgs : TierConfigs) (product : ProductData) (opts : AnalysisOptions) : Deal :=
  let feeBreakdown := calculateFees
    { salePrice := product.price,
      category := opts.category.getD "default",
      fulfillmentType := opts.fulfillmentType,
      marketplace := product.marketplace,
      productWeight := opts.productWeight,
      productDimensions := opts.productDimensions,
      isMedia := opts.isMedia }
  let metrics := calculateMetrics product.price opts.costPrice feeBreakdown.total
  let classification := classify cfgs metrics.margin metrics.roi
  { product, metrics, feeBreakdown,
    tier := classification.tier, fulfillmentType := opts.fulfillmentType }

/-- DealAnalyzer.analyzeBatch: the length guard throws before any element is
analyzed; under the guard, the source's map-with-index over `products`
indexing into `optionsList` coincides with the zip of the two lists. -/
def analyzeBatch (cfgs : TierConfigs) (products : List ProductData)
    (optionsList : List AnalysisOptions) : Except String (List Deal) :=
  if products.length ≠ optionsList.length then
    .error "Products and options lists must have the same length"
  else
    .ok (List.zipWith (analyze cfgs) products optionsList)

/-- DealFilter from src/models/deal.ts (field shapes taken from their uses in
DealFilterManager.passesFilter and the filter unit tests). -/
structure DealFilter where
  minMargin : ℚ
  minRoi : ℚ
  minProfit : ℚ
  maxPrice : ℚ
  minRating : ℚ
  maxSalesRank : ℕ
  marketplaces : List MarketplaceCode
deriving DecidableEq, Repr

/-- DealFilterManager.passesFilter: seven early-return checks. -/
def passesFilter (deal : Deal) (f : DealFilter) : Bool :=
  if deal.metrics.margin < f.minMargin then false
  else if deal.metrics.roi < f.minRoi then false
  else if deal.metrics.profit < f.minProfit then false
  else if deal.product.price > f.maxPrice then false
  else if deal.product.rating < f.minRating then false
  else if f.maxSalesRank > 0 ∧ deal.product.salesRank > f.maxSalesRank then false
  else if deal.product.marketplace ∉ f.marketplaces then false
  else true

/-- DealFilterManager.filter. -/
def filterDeals (deals : List Deal) (f : DealFilter) : List Deal :=
  deals.filter (fun d => passesFilter d f)

/-- The seven criteria of a DealFilter, for stating per-criterion removal. -/
inductive FilterCriterion
  | minMargin
  | minRoi
  | minProfit
  | maxPrice
  | minRating
  | maxSalesRank
  | marketplaces
deriving DecidableEq, Repr

/-- passesFilter with the single criterion `c` removed (its check skipped,
which is what replacing the criterion by its neutral value — e.g.
`maxSalesRank = 0`, the unbounded marker — achieves). -/
def passesFilterExcept (c : FilterCriterion) (deal : Deal) (f : DealFilter) : Bool :=
  if c ≠ .minMargin ∧ deal.metrics.margin < f.minMargin then false
  else if c ≠ .minRoi ∧ deal.metrics.roi < f.minRoi then false
  else if c ≠ .minProfit ∧ deal.metrics.profit < f.minProfit then false
  else if c ≠ .maxPrice ∧ deal.product.price > f.maxPrice then false
  else if c ≠ .minRating ∧ deal.product.rating < f.minRating then false
  else if c ≠ .maxSalesRank ∧ f.maxSalesRank > 0 ∧ deal.product.salesRank > f.maxSalesRank then false
  else if c ≠ .marketplaces ∧ deal.product.marketplace ∉ f.marketplaces then false
  else true

/-- DealFilterManager.filter with the single criterion `c` removed. -/
def filterDealsExcept (c : FilterCriterion) (deals : List Deal) (f : DealFilter) : List Deal :=
  deals.filter (fun d => passesFilterExcept c d f)

/-- PriceHistoryEntry from src/tracker/types.ts. -/
structure PriceHistoryEntry where
  asin : String
  marketplace : MarketplaceCode
  price : ℚ
  timestamp : ℕ
deriving DecidableEq, Repr

/-- PriceChangeAlert from src/tracker/types.ts. -/
structure PriceChangeAlert where
  asin : String
  marketplace : MarketplaceCode
  oldPrice : ℚ
  newPrice : ℚ
  changeAmount : ℚ
  changePercentage : ℚ
  timestamp : ℕ
deriving DecidableEq, Repr

/-- PriceHistoryManager.getKey builds the string `asin:marketplace`; the
embedding uses the pair itself (ASINs are alphanumeric, so the string key is
injective on the pair). -/
abbrev HistoryKey := String × MarketplaceCode

/-- Map.get on an association list. -/
def getEntry {κ α : Type} [DecidableEq κ] : List (κ × α) → κ → Option α
  | [], _ => none
  | (k', v) :: rest, k => if k' = k then some v else getEntry rest k

/-- Map.set on an association list: replace in place when the key exists,
append otherwise (JS Map keeps the original insertion position on update). -/
def setEntry {κ α : Type} [DecidableEq κ] : List (κ × α) → κ → α → List (κ × α)
  | [], k, v => [(k, v)]
  | (k', v') :: rest, k, v =>
    if k' = k then (k, v) :: rest else (k', v') :: setEntry rest k v

/-- Map.delete on an association list: remove the first binding of the key. -/
def delEntry {κ α : Type} [DecidableEq κ] : List (κ × α) → κ → List (κ × α)
  | [], _ => []
  | (k', v') :: rest, k => if k' = k then rest else (k', v') :: delEntry rest k

/-- PriceHistoryManager state: the `history` map and the `lastPrices` cache. -/
structure PriceHistoryManager where
  history : List (HistoryKey × List PriceHistoryEntry)
  lastPrices : List (HistoryKey × ℚ)
deriving DecidableEq, Repr

/-- Key of an entry, as computed by getKey inside addPriceEntry. -/
def entryKey (e : PriceHistoryEntry) : HistoryKey := (e.asin, e.marketplace)

/-- PriceHistoryManager.addPriceEntry: returns the updated manager together
with the emitted alert (the source mutates `this` and returns the alert). -/
def addPriceEntry (s : PriceHistoryManager) (e : PriceHistoryEntry) :
    PriceHistoryManager × Option PriceChangeAlert :=
  let key := entryKey e
  let lastPrice := getEntry s.lastPrices key
  let alert : Option PriceChangeAlert :=
    match lastPrice with
    | some p0 =>
      if p0 = e.price then none
      else
        some { asin := e.asin, marketplace := e.marketplace, oldPrice := p0,
               newPrice := e.price, changeAmount := e.price - p0,
               changePercentage := if p0 > 0 then (e.price - p0) / p0 * 100 else 0,
               timestamp := e.timestamp }
    | none => none
  let hist := (getEntry s.history key).getD []
  let hist := hist ++ [e]
  let hist := if hist.length > 1000 then hist.tail else hist
  ({ history := setEntry s.history key hist,
     lastPrices := setEntry s.lastPrices key e.price }, alert)

/-- A freshly constructed PriceHistoryManager (both maps empty). -/
def emptyPriceHistory : PriceHistoryManager := ⟨[], []⟩

/-- The manager state after a sequence of addPriceEntry calls from fresh. -/
def runPriceHistory (es : List PriceHistoryEntry) : PriceHistoryManager :=
  es.foldl (fun s e => (addPriceEntry s e).1) emptyPriceHistory

/-- The entries of a call sequence that target a given key, in call order. -/
def entriesFor (es : List PriceHistoryEntry) (k : HistoryKey) : List PriceHistoryEntry :=
  es.filter (fun e => decide (entryKey e = k))

/-- The last price recorded for a key by a call sequence, if any. -/
def lastPriceOf (es : List PriceHistoryEntry) (k : HistoryKey) : Option ℚ :=
  ((entriesFor es k).map (·.price)).getLast?

/-- Task status from src/scheduler/types.ts. -/
inductive TaskStatus
  | pending
  | running
  | completed
  | failed
deriving DecidableEq, Repr

/-- Task from src/scheduler/types.ts, restricted to the fields the queue
logic consults (`type`, `target`, `marketplace`, `scheduledAt` are payload
carried through unchanged and are omitted). -/
structure Task where
  id : String
  priority : ℤ
  createdAt : ℕ
  startedAt : Option ℕ
  completedAt : Option ℕ
  status : TaskStatus
  retryCount : ℕ
  maxRetries : ℕ
  error : Option String
deriving DecidableEq, Repr

/-- TaskResult from src/scheduler/types.ts, minus the `data?: any` payload. -/
structure TaskResult where
  taskId : String
  success : Bool
  error : Option String
  duration : ℤ
deriving DecidableEq, Repr

/-- The TaskQueue class state: pending array, running map, completed map and
the rolling duration window. -/
structure TaskQueue where
  queue : List Task
  runningTasks : List (String × Task)
  completedTasks : List (String × TaskResult)
  taskDurations : List ℤ
deriving DecidableEq, Repr

/-- Insert a task into a descending-priority list, after every task of
strictly higher priority (stable position). -/
def insertByPriority (t : Task) : List Task → List Task
  | [] => [t]
  | u :: us => if u.priority > t.priority then u :: insertByPriority t us else t :: u :: us

/-- `queue.sort((a, b) => b.priority - a.priority)`: a stable descending
sort by priority, embedded as an insertion sort. -/
def sortQueue (l : List Task) : List Task := l.foldr insertByPriority []

/-- The `Omit<Task, 'id' | 'createdAt' | 'status' | 'retryCount'>` argument
of addTask, restricted to the fields the queue logic consults. -/
structure TaskSpec where
  priority : ℤ
  maxRetries : ℕ
deriving DecidableEq, Repr

/-- The `Omit<TaskResult, 'taskId'>` argument of completeTask, minus the
payload; any supplied `duration` is overwritten by the computed one. -/
structure TaskResultSpec where
  success : Bool
  error : Option String
deriving DecidableEq, Repr

/-- TaskQueue.addTask; `id` stands for the generated uuid v4 and `now` for
`new Date()`. -/
def addTask (s : TaskQueue) (id : String) (spec : TaskSpec) (now : ℕ) : TaskQueue :=
  let newTask : Task :=
    { id, priority := spec.priority, createdAt := now, startedAt := none,
      completedAt := none, status := .pending, retryCount := 0,
      maxRetries := spec.maxRetries, error := none }
  { s with queue := sortQueue (s.queue ++ [newTask]) }

/-- TaskQueue.getNextTask: shift the queue head, mark it running, stamp
startedAt, record it in the running map, and return it. -/
def getNextTask (s : TaskQueue) (now : ℕ) : TaskQueue × Option Task :=
  match s.queue with
  | [] => (s, none)
  | t :: rest =>
    let t' := { t with status := .running, startedAt := some now }
    ({ s with queue := rest, runningTasks := setEntry s.runningTasks t'.id t' }, some t')

/-- TaskQueue.getNextTasks: up to `count` iterated getNextTask calls,
stopping early on an empty queue. -/
def getNextTasks (s : TaskQueue) (count : ℕ) (now : ℕ) : TaskQueue × List Task :=
  match count with
  | 0 => (s, [])
  | n + 1 =>
    match s.queue with
    | [] => (s, [])
    | _ :: _ =>
      let p := getNextTask s now
      let q := getNextTasks p.1 n now
      (q.1, p.2.toList ++ q.2)

/-- TaskQueue.completeTask. `startedAt?.getTime() || createdAt.getTime()` is
embedded as `getD` (the `||` fallback also fires on a 0 start time, i.e. the
1970 epoch, which no reachable stamp produces). -/
def completeTask (s : TaskQueue) (taskId : String) (r : TaskResultSpec) (now : ℕ) : TaskQueue :=
  match getEntry s.runningTasks taskId with
  | none => s
  | some task =>
    let task := { task with status := .completed, completedAt := some now }
    let duration : ℤ := (now : ℤ) - (task.startedAt.getD task.createdAt : ℤ)
    let ds := s.taskDurations ++ [duration]
    let ds := if ds.length > 100 then ds.tail else ds
    { s with runningTasks := delEntry s.runningTasks taskId,
             completedTasks := setEntry s.completedTasks taskId
               { taskId, success := r.success, error := r.error, duration },
             taskDurations := ds }

/-- TaskQueue.failTask: increments retryCount first, then compares the
incremented count against maxRetries to choose requeue or terminal failure. -/
def failTask (s : TaskQueue) (taskId : String) (error : String) (now : ℕ) : TaskQueue :=
  match getEntry s.runningTasks taskId with
  | none => s
  | some task0 =>
    let task1 := { task0 with retryCount := task0.retryCount + 1 }
    if task1.retryCount < task1.maxRetries then
      let task2 := { task1 with status := .pending, startedAt := none, error := some error }
      { s with runningTasks := delEntry s.runningTasks taskId,
               queue := sortQueue (s.queue ++ [task2]) }
    else
      let task2 := { task1 with status := .failed, completedAt := some now, error := some error }
      let duration : ℤ := (now : ℤ) - (task2.startedAt.getD task2.createdAt : ℤ)
      { s with runningTasks := delEntry s.runningTasks taskId,
               completedTasks := setEntry s.completedTasks taskId
                 { taskId, success := false, error := some error, duration } }

/-- Ids of the tasks in the pending queue, in queue order. -/
def queueIds (s : TaskQueue) : List String := s.queue.map (·.id)

/-- Keys of the running map. -/
def runningIds (s : TaskQueue) : List String := s.runningTasks.map (·.1)

/-- Keys of the completed-results map. -/
def completedIds (s : TaskQueue) : List String := s.completedTasks.map (·.1)

/-- A freshly constructed TaskQueue (all collections empty). -/
def initTaskQueue : TaskQueue := ⟨[], [], [], []⟩

/-- One public mutating call on the TaskQueue. The `add` constructor carries
the uuid-freshness assumption: a freshly generated v4 id collides with no id
the queue has ever handed out. -/
inductive QueueStep : TaskQueue → TaskQueue → Prop
  | add (s : TaskQueue) (id : String) (spec : TaskSpec) (now : ℕ)
      (hq : id ∉ queueIds s) (hr : id ∉ runningIds s) (hc : id ∉ completedIds s) :
      QueueStep s (addTask s id spec now)
  | deq (s : TaskQueue) (now : ℕ) : QueueStep s (getNextTask s now).1
  | deqBatch (s : TaskQueue) (count now : ℕ) : QueueStep s (getNextTasks s count now).1
  | comp (s : TaskQueue) (id : String) (r : TaskResultSpec) (now : ℕ) :
      QueueStep s (completeTask s id r now)
  | failStep (s : TaskQueue) (id : String) (e : String) (now : ℕ) :
      QueueStep s (failTask s id e now)

/-- States reachable from a fresh TaskQueue by any call sequence. -/
def QueueReachable (s : TaskQueue) : Prop :=
  Relation.ReflTransGen QueueStep initTaskQueue s

/-- The dispatch-safety invariant: pending ids are pairwise distinct, running
keys are pairwise distinct, no id is both pending and running, and every
running entry is stored under its own task id. -/
def QueueInv (s : TaskQueue) : Prop :=
  (queueIds s).Nodup ∧ (runningIds s).Nodup ∧
  (∀ id ∈ queueIds s, id ∉ runningIds s) ∧
  (∀ p ∈ s.runningTasks, p.2.id = p.1)

/-- Concrete fee-calculation input refuting C1: a media item (closing fee
0.99) sold FBM on the German marketplace at price 10. -/
def c1Params : FeeCalculationParams :=
  { salePrice := 10, category := "default", fulfillmentType := .FBM,
    marketplace := .DE, productWeight := none, productDimensions := none,
    isMedia := true }

/-- Concrete tier configuration used by witnesses (the default high/medium/low
bands of config/settings). -/
def exTierConfigs : TierConfigs :=
  { high := { minMargin := 50, maxMargin := none, minRoi := 100, maxRoi := none },
    medium := { minMargin := 30, maxMargin := some 50, minRoi := 60, maxRoi := some 100 },
    low := { minMargin := 15, maxMargin := some 30, minRoi := 30, maxRoi := some 60 } }

/-- Concrete product used by witnesses. -/
def exProduct : ProductData :=
  { asin := "B08N5WRWNW", marketplace := .DE, price := 10, rating := 9/2, salesRank := 100 }

/-- A task id that has been terminally retired: recorded in the completed
map and absent from both the pending queue and the running map. -/
def Retired (id : String) (s : TaskQueue) : Prop :=
  id ∈ completedIds s ∧ id ∉ queueIds s ∧ id ∉ runningIds s

/-- Concrete running task refuting C2: pre-call retryCount 0 is strictly
below maxRetries 1, yet the incremented count reaches maxRetries. -/
def c2Task : Task :=
  { id := "t1", priority := 0, createdAt := 0, startedAt := some 1,
    completedAt := none, status := .running, retryCount := 0, maxRetries := 1,
    error := none }

/-- Queue state holding only the running task `c2Task`. -/
def c2State : TaskQueue :=
  { queue := [], runningTasks := [("t1", c2Task)], completedTasks := [],
    taskDurations := [] }

/-- Concrete running task for the C2 witness: two retries still available. -/
def c2wTask : Task :=
  { id := "b", priority := 2, createdAt := 0, startedAt := some 3,
    completedAt := none, status := .running, retryCount := 0, maxRetries := 3,
    error := none }

/-- Queue state holding only the running task `c2wTask`. -/
def c2wState : TaskQueue :=
  { queue := [], runningTasks := [("b", c2wTask)], completedTasks := [],
    taskDurations := [] }

/-- Concrete task specification used by the C9 witness. -/
def c9Spec : TaskSpec := { priority := 5, maxRetries := 3 }

/- ------------------------------------------------------------------ -/
/- Theorems.                                                          -/
/- ------------------------------------------------------------------ -/

/-- C1 (counterexample): for a media item the `total` returned by
calculateFees exceeds the sum of the five returned fields by the 0.99
closing fee, refuting the claimed invariant for `isMedia = true`. -/
theorem C1_counterexample :
    (calculateFees c1Params).total ≠
      (calculateFees c1Params).referralFee + (calculateFees c1Params).fulfillmentFee +
        (calculateFees c1Params).storageFee + (calculateFees c1Params).vat +
        (calculateFees c1Params).shippingCost := by
  simp only [calculateFees, c1Params, referralFeeRate, REFERRAL_FEES, CLOSING_FEES,
    calculateStorageFee, calculateShippingCost, VAT_RATES, List.lookup]
  norm_num

/-- C1 (amended): the `total` of every FeeBreakdown returned by calculateFees
equals the sum of the five returned fields plus the per-market closing fee
(0.99) exactly when the item is media; in particular the five-field sum
invariant holds whenever `isMedia` is false. -/
theorem C1_total_eq_sum_plus_closing_fee (p : FeeCalculationParams) :
    (calculateFees p).total =
      (calculateFees p).referralFee + (calculateFees p).fulfillmentFee +
        (calculateFees p).storageFee + (calculateFees p).vat +
        (calculateFees p).shippingCost +
        (if p.isMedia then CLOSING_FEES p.marketplace else 0) := by
  simp only [calculateFees]
  ring

/-- C3: classify agrees everywhere with the specification's classification —
bands checked in the fixed order high, medium, low, a band satisfied iff
margin and roi lie within its (optionally unbounded) bounds, the first
satisfied band winning with `qualifies = true`, and the fallback returning
the low tier with `qualifies = false`; overlapping bands therefore resolve
to the higher-priority tier. -/
theorem C3_classify_matches_spec (cfgs : TierConfigs) (margin roi : ℚ) :
    classify cfgs margin roi = classifySpec cfgs margin roi := by
  have h : ∀ cfg : DealTierConfig, checkTier cfg margin roi = bandSatisfied cfg margin roi := by
    intro cfg
    rcases cfg with ⟨mm, maxm, mr, maxr⟩
    rcases maxm with _ | m1 <;> rcases maxr with _ | m2 <;>
      simp only [checkTier, bandSatisfied, exceedsMax] <;>
      split_ifs <;>
      simp_all [not_lt, not_le, decide_eq_true_eq]
  unfold classify classifySpec
  rw [h cfgs.high, h cfgs.medium, h cfgs.low]

/-- C4: calculateMetrics agrees everywhere with the specification's metric
formulas — profit is the exact difference, margin is profit/salePrice×100
with a 0 default for non-positive sale price, roi is profit/costPrice×100
with a 0 default for non-positive cost price; both functions are total, so
no error is raised for zero or negative prices. -/
theorem C4_metrics_match_spec (s c f : ℚ) :
    calculateMetrics s c f = specDealMetrics s c f := by
  unfold calculateMetrics specDealMetrics
  by_cases hs : 0 < s
  · by_cases hc : 0 < c
    · simp [hs, hc, not_le.mpr hs, not_le.mpr hc]
    · simp [hs, hc, not_le.mpr hs, not_lt.mp hc]
  · by_cases hc : 0 < c
    · simp [hs, hc, not_lt.mp hs, not_le.mpr hc]
    · simp [hs, hc, not_lt.mp hs, not_lt.mp hc]

/-- C8: analyzeBatch of lists of unequal length is an error before any
element is analyzed; on lists of equal length n it returns exactly n deals,
the i-th being analyze of the i-th product and i-th options. -/
theorem C8_analyzeBatch_spec (cfgs : TierConfigs) (ps : List ProductData)
    (opts : List AnalysisOptions) :
    (ps.length ≠ opts.length →
      analyzeBatch cfgs ps opts =
        .error "Products and options lists must have the same length") ∧
    (ps.length = opts.length →
      ∃ l, analyzeBatch cfgs ps opts = .ok l ∧ l.length = ps.length ∧
        ∀ (i : ℕ) (hi : i < ps.length) (hj : i < opts.length) (hl : i < l.length),
          l.get ⟨i, hl⟩ = analyze cfgs (ps.get ⟨i, hi⟩) (opts.get ⟨i, hj⟩)) := by
  constructor
  · intro h
    simp [analyzeBatch, h]
  · intro h
    refine ⟨List.zipWith (analyze cfgs) ps opts, by simp [analyzeBatch, h], ?_, ?_⟩
    · simp [h]
    · intro i hi hj hl
      simp [List.get_eq_getElem, List.getElem_zipWith]

/-- C8 witness: a one-product, zero-options call hits the mismatch error. -/
theorem C8_analyzeBatch_spec_witness :
    analyzeBatch exTierConfigs [exProduct] [] =
      .error "Products and options lists must have the same length" :=
  (C8_analyzeBatch_spec exTierConfigs [exProduct] []).1 (by simp)

/-- Map.get after Map.set: the set key reads back the new value, every other
key is unaffected. -/
theorem getEntry_setEntry {κ α : Type} [DecidableEq κ] (m : List (κ × α)) (k k' : κ) (v : α) :
    getEntry (setEntry m k v) k' = if k' = k then some v else getEntry m k' := by
  induction m with
  | nil =>
    simp only [setEntry, getEntry]
    by_cases h : k = k'
    · rw [if_pos h, if_pos h.symm]
    · rw [if_neg h, if_neg (fun hh => h hh.symm)]
  | cons p rest ih =>
    obtain ⟨k₀, v₀⟩ := p
    by_cases h : k₀ = k
    · subst h
      simp only [setEntry, if_pos rfl, getEntry]
      by_cases h' : k₀ = k'
      · rw [if_pos h', if_pos h'.symm]
      · rw [if_neg h', if_neg (fun hh => h' hh.symm), if_neg h']
    · simp only [setEntry, if_neg h, getEntry]
      by_cases h' : k₀ = k'
      · rw [if_pos h', if_pos h', if_neg (fun hh => h (h'.trans hh))]
      · rw [if_neg h', if_neg h', ih]

/-- Running one more addPriceEntry call is a fold step. -/
theorem runPriceHistory_append (es : List PriceHistoryEntry) (e : PriceHistoryEntry) :
    runPriceHistory (es ++ [e]) = (addPriceEntry (runPriceHistory es) e).1 := by
  unfold runPriceHistory
  rw [List.foldl_append]
  rfl

/-- Splitting the per-key entries of a call sequence around its last call. -/
theorem entriesFor_append (es : List PriceHistoryEntry) (e : PriceHistoryEntry) (k : HistoryKey) :
    entriesFor (es ++ [e]) k =
      entriesFor es k ++ (if entryKey e = k then [e] else []) := by
  unfold entriesFor
  rw [List.filter_append]
  congr 1
  split_ifs with h <;> simp [List.filter, h]

/-- The lastPrices cache after a call sequence holds, per key, exactly the
price of the last call that targeted that key. -/
theorem lastPrices_runPriceHistory (es : List PriceHistoryEntry) (k : HistoryKey) :
    getEntry (runPriceHistory es).lastPrices k = lastPriceOf es k := by
  induction es using List.reverseRecOn with
  | nil => simp [runPriceHistory, emptyPriceHistory, getEntry, lastPriceOf, entriesFor]
  | append_singleton es e ih =>
    rw [runPriceHistory_append]
    simp only [addPriceEntry]
    rw [getEntry_setEntry]
    unfold lastPriceOf
    rw [entriesFor_append]
    by_cases hk : k = entryKey e
    · simp [hk, List.getLast?_concat]
    · have hk' : ¬ entryKey e = k := fun h => hk h.symm
      simp only [if_neg hk, if_neg hk', List.append_nil]
      exact ih

/-- C5: over any call sequence, addPriceEntry for the key of `e` returns an
alert iff a last price `p0` was previously recorded for that key and differs
from `e.price`; the alert then carries oldPrice `p0`, newPrice `e.price`,
changeAmount `e.price - p0`, and changePercentage `(e.price - p0)/p0·100`
when `p0 > 0` and `0` otherwise. The first observation of a key and a
repeated identical price both return no alert. -/
theorem C5_alert_iff_changed (es : List PriceHistoryEntry) (e : PriceHistoryEntry) :
    (addPriceEntry (runPriceHistory es) e).2 =
      match lastPriceOf es (entryKey e) with
      | none => none
      | some p0 =>
        if p0 = e.price then none
        else
          some { asin := e.asin, marketplace := e.marketplace, oldPrice := p0,
                 newPrice := e.price, changeAmount := e.price - p0,
                 changePercentage := if p0 > 0 then (e.price - p0) / p0 * 100 else 0,
                 timestamp := e.timestamp } := by
  simp only [addPriceEntry]
  rw [lastPrices_runPriceHistory]
  cases lastPriceOf es (entryKey e) <;> rfl

/-- The per-key stored series after a call sequence is the suffix of that
key's entries obtained by dropping everything but the last 1000. -/
theorem history_runPriceHistory (es : List PriceHistoryEntry) (k : HistoryKey) :
    (getEntry (runPriceHistory es).history k).getD [] =
      (entriesFor es k).drop ((entriesFor es k).length - 1000) := by
  induction es using List.reverseRecOn with
  | nil => simp [runPriceHistory, emptyPriceHistory, getEntry, entriesFor]
  | append_singleton es e ih =>
    rw [runPriceHistory_append]
    simp only [addPriceEntry]
    rw [getEntry_setEntry, entriesFor_append]
    by_cases hk : k = entryKey e
    · subst hk
      simp only [eq_self_iff_true, if_true, Option.getD_some]
      rw [ih]
      set l := entriesFor es (entryKey e) with hl
      have hlap : (l ++ [e]).length = l.length + 1 := by
        rw [List.length_append, List.length_singleton]
      by_cases hlen : l.length < 1000
      · have h0 : l.length - 1000 = 0 := by omega
        rw [h0, List.drop_zero]
        have hcap : (l ++ [e]).length ≤ 1000 := by
          rw [hlap]
          omega
        rw [if_neg (not_lt.mpr hcap)]
        have h1 : (l ++ [e]).length - 1000 = 0 := by
          rw [hlap]
          omega
        rw [h1, List.drop_zero]
      · have hgt : l.length ≥ 1000 := by omega
        have hdlen : (l.drop (l.length - 1000)).length = 1000 := by
          rw [List.length_drop]
          omega
        have hcap : (l.drop (l.length - 1000) ++ [e]).length > 1000 := by
          rw [List.length_append, List.length_singleton, hdlen]
          omega
        rw [if_pos hcap]
        rw [← List.drop_one, List.drop_append_eq_append_drop, hdlen]
        have h2 : (1 : ℕ) - 1000 = 0 := by omega
        rw [h2, List.drop_zero, List.drop_drop]
        rw [List.drop_append_eq_append_drop]
        have h3 : (l ++ [e]).length - 1000 = l.length - 1000 + 1 := by
          rw [hlap]
          omega
        have h4 : l.length - 1000 + 1 - l.length = 0 := by omega
        rw [h3, h4, List.drop_zero]
    · have hk' : ¬ entryKey e = k := fun h => hk h.symm
      simp only [if_neg hk, if_neg hk', List.append_nil]
      exact ih

/-- C7: for every key and every sequence of addPriceEntry calls, the stored
series never exceeds 1000 entries and always equals the most recent at most
1000 entries for that key, in insertion order (oldest evicted first). -/
theorem C7_history_capped (es : List PriceHistoryEntry) (k : HistoryKey) :
    ((getEntry (runPriceHistory es).history k).getD []).length ≤ 1000 ∧
    (getEntry (runPriceHistory es).history k).getD [] =
      (entriesFor es k).drop ((entriesFor es k).length - 1000) := by
  refine ⟨?_, history_runPriceHistory es k⟩
  rw [history_runPriceHistory es k, List.length_drop]
  omega

/-- A deal passing the full filter fails none of the seven checks. -/
theorem passesFilter_conds (d : Deal) (f : DealFilter) (h : passesFilter d f = true) :
    ¬ d.metrics.margin < f.minMargin ∧ ¬ d.metrics.roi < f.minRoi ∧
    ¬ d.metrics.profit < f.minProfit ∧ ¬ d.product.price > f.maxPrice ∧
    ¬ d.product.rating < f.minRating ∧
    ¬ (f.maxSalesRank > 0 ∧ d.product.salesRank > f.maxSalesRank) ∧
    d.product.marketplace ∈ f.marketplaces := by
  unfold passesFilter at h
  split_ifs at h with h1 h2 h3 h4 h5 h6 h7
  exact ⟨h1, h2, h3, h4, h5, h6, h7⟩

/-- Dropping one criterion can only keep more deals: a deal passing the full
filter passes the weakened one. -/
theorem passesFilter_imp_except (c : FilterCriterion) (d : Deal) (f : DealFilter)
    (h : passesFilter d f = true) : passesFilterExcept c d f = true := by
  obtain ⟨h1, h2, h3, h4, h5, h6, h7⟩ := passesFilter_conds d f h
  unfold passesFilterExcept
  rw [if_neg (fun hc => h1 hc.2), if_neg (fun hc => h2 hc.2),
    if_neg (fun hc => h3 hc.2), if_neg (fun hc => h4 hc.2),
    if_neg (fun hc => h5 hc.2), if_neg (fun hc => h6 hc.2),
    if_neg (fun hc => hc.2 h7)]

/-- C6: deal filtering is a pure conjunction — for a fixed input collection,
removing any single one of the seven criteria (equivalently, replacing it by
its neutral value) yields a result list of which the original result list is
a sublist, hence a subset: the result can only grow. -/
theorem C6_filter_weakening_grows (deals : List Deal) (f : DealFilter) (c : FilterCriterion) :
    (filterDeals deals f).Sublist (filterDealsExcept c deals f) := by
  unfold filterDeals filterDealsExcept
  exact List.monotone_filter_right deals (fun d hd => passesFilter_imp_except c d f hd)

/-- Inserting into the priority order is a permutation of consing. -/
theorem insertByPriority_perm (t : Task) (l : List Task) :
    (insertByPriority t l).Perm (t :: l) := by
  induction l with
  | nil => exact List.Perm.refl _
  | cons u us ih =>
    simp only [insertByPriority]
    split_ifs
    · exact (ih.cons u).trans (List.Perm.swap t u us)
    · exact List.Perm.refl _

/-- sortQueue permutes the queue. -/
theorem sortQueue_perm (l : List Task) : (sortQueue l).Perm l := by
  induction l with
  | nil => exact List.Perm.refl _
  | cons t ts ih =>
    exact (insertByPriority_perm t (sortQueue ts)).trans (ih.cons t)

/-- A successful Map.get pins the binding to a list member. -/
theorem getEntry_some_mem {κ α : Type} [DecidableEq κ] {m : List (κ × α)} {k : κ} {v : α}
    (h : getEntry m k = some v) : (k, v) ∈ m := by
  induction m with
  | nil => simp [getEntry] at h
  | cons p rest ih =>
    obtain ⟨k₀, v₀⟩ := p
    simp only [getEntry] at h
    split_ifs at h with hk
    · obtain ⟨rfl⟩ := Option.some.inj h
      subst hk
      exact List.mem_cons_self _ _
    · exact List.mem_cons_of_mem _ (ih h)

/-- A successful Map.get means the key is among the stored keys. -/
theorem mem_keys_of_getEntry_some {κ α : Type} [DecidableEq κ] {m : List (κ × α)} {k : κ}
    {v : α} (h : getEntry m k = some v) : k ∈ m.map Prod.fst :=
  List.mem_map.mpr ⟨(k, v), getEntry_some_mem h, rfl⟩

/-- Keys after Map.set: the old keys plus the set key. -/
theorem mem_keys_setEntry {κ α : Type} [DecidableEq κ] (m : List (κ × α)) (k a : κ) (v : α) :
    a ∈ (setEntry m k v).map Prod.fst ↔ a ∈ m.map Prod.fst ∨ a = k := by
  induction m with
  | nil => simp [setEntry]
  | cons p rest ih =>
    obtain ⟨k₀, v₀⟩ := p
    by_cases h : k₀ = k
    · subst h
      simp only [setEntry, eq_self_iff_true, if_true, List.map_cons, List.mem_cons]
      tauto
    · simp only [setEntry, if_neg h, List.map_cons, List.mem_cons, ih]
      tauto

/-- Map.set keeps the stored keys pairwise distinct. -/
theorem nodup_keys_setEntry {κ α : Type} [DecidableEq κ] (m : List (κ × α)) (k : κ) (v : α)
    (h : (m.map Prod.fst).Nodup) : ((setEntry m k v).map Prod.fst).Nodup := by
  induction m with
  | nil => simp [setEntry]
  | cons p rest ih =>
    obtain ⟨k₀, v₀⟩ := p
    simp only [List.map_cons, List.nodup_cons] at h
    by_cases hk : k₀ = k
    · subst hk
      simp only [setEntry, eq_self_iff_true, if_true, List.map_cons, List.nodup_cons]
      exact h
    · simp only [setEntry, if_neg hk, List.map_cons, List.nodup_cons]
      refine ⟨?_, ih h.2⟩
      rw [mem_keys_setEntry]
      rintro (hmem | rfl)
      · exact h.1 hmem
      · exact hk rfl

/-- A Map.set member is an old member or the new binding. -/
theorem mem_setEntry_cases {κ α : Type} [DecidableEq κ] {m : List (κ × α)} {k : κ} {v : α}
    {p : κ × α} (h : p ∈ setEntry m k v) : p ∈ m ∨ p = (k, v) := by
  induction m with
  | nil =>
    simp only [setEntry, List.mem_singleton] at h
    exact Or.inr h
  | cons q rest ih =>
    obtain ⟨k₀, v₀⟩ := q
    by_cases hk : k₀ = k
    · subst hk
      simp only [setEntry, eq_self_iff_true, if_true, List.mem_cons] at h
      rcases h with rfl | h
      · exact Or.inr rfl
      · exact Or.inl (List.mem_cons_of_mem _ h)
    · simp only [setEntry, if_neg hk, List.mem_cons] at h
      rcases h with rfl | h
      · exact Or.inl (List.mem_cons_self _ _)
      · rcases ih h with h' | h'
        · exact Or.inl (List.mem_cons_of_mem _ h')
        · exact Or.inr h'

/-- Map.delete yields a sublist of the bindings. -/
theorem delEntry_sublist {κ α : Type} [DecidableEq κ] (m : List (κ × α)) (k : κ) :
    (delEntry m k).Sublist m := by
  induction m with
  | nil => simp [delEntry]
  | cons p rest ih =>
    obtain ⟨k₀, v₀⟩ := p
    by_cases hk : k₀ = k
    · simp only [delEntry, if_pos hk]
      exact (List.Sublist.refl _).cons _
    · simp only [delEntry, if_neg hk]
      exact ih.cons₂ _

/-- Keys after Map.delete are a sublist of the old keys. -/
theorem keys_delEntry_sublist {κ α : Type} [DecidableEq κ] (m : List (κ × α)) (k : κ) :
    ((delEntry m k).map Prod.fst).Sublist (m.map Prod.fst) :=
  (delEntry_sublist m k).map Prod.fst

/-- With distinct keys, Map.delete fully removes its key. -/
theorem not_mem_keys_delEntry {κ α : Type} [DecidableEq κ] (m : List (κ × α)) (k : κ)
    (h : (m.map Prod.fst).Nodup) : k ∉ (delEntry m k).map Prod.fst := by
  induction m with
  | nil => simp [delEntry]
  | cons p rest ih =>
    obtain ⟨k₀, v₀⟩ := p
    simp only [List.map_cons, List.nodup_cons] at h
    by_cases hk : k₀ = k
    · subst hk
      simp only [delEntry, if_pos rfl]
      exact h.1
    · simp only [delEntry, if_neg hk, List.map_cons, List.mem_cons, not_or]
      exact ⟨fun hh => hk hh.symm, ih h.2⟩

/-- The ids of a sorted, appended queue are the old ids plus the new one. -/
theorem queueIds_sortQueue_append (l : List Task) (t : Task) :
    ((sortQueue (l ++ [t])).map (fun u : Task => u.id)).Perm
      (l.map (fun u : Task => u.id) ++ [t.id]) := by
  have h := (sortQueue_perm (l ++ [t])).map (fun u : Task => u.id)
  simpa using h

/-- The pending ids after addTask are the old ones plus the new id. -/
theorem queueIds_addTask_perm (s : TaskQueue) (id : String) (spec : TaskSpec) (now : ℕ) :
    (queueIds (addTask s id spec now)).Perm (queueIds s ++ [id]) := by
  simp only [addTask, queueIds]
  exact queueIds_sortQueue_append s.queue _

/-- addTask preserves the dispatch-safety invariant for a fresh id. -/
theorem queueInv_addTask (s : TaskQueue) (id : String) (spec : TaskSpec) (now : ℕ)
    (hq : id ∉ queueIds s) (hr : id ∉ runningIds s) (hinv : QueueInv s) :
    QueueInv (addTask s id spec now) := by
  obtain ⟨h1, h2, h3, h4⟩ := hinv
  have hperm := queueIds_addTask_perm s id spec now
  refine ⟨?_, h2, ?_, h4⟩
  · rw [hperm.nodup_iff, List.nodup_append]
    refine ⟨h1, List.nodup_singleton _, ?_⟩
    intro a ha hmem
    rw [List.mem_singleton] at hmem
    subst hmem
    exact hq ha
  · intro a ha
    rcases (List.mem_append.mp (hperm.mem_iff.mp ha)) with h | h
    · exact h3 a h
    · rw [List.mem_singleton] at h
      subst h
      exact hr

/-- getNextTask preserves the dispatch-safety invariant. -/
theorem queueInv_getNextTask (s : TaskQueue) (now : ℕ) (hinv : QueueInv s) :
    QueueInv (getNextTask s now).1 := by
  obtain ⟨h1, h2, h3, h4⟩ := hinv
  unfold getNextTask
  cases hq : s.queue with
  | nil => exact ⟨h1, h2, h3, h4⟩
  | cons t rest =>
    have h1' : (t.id :: rest.map (fun u : Task => u.id)).Nodup := by
      have : queueIds s = t.id :: rest.map (fun u : Task => u.id) := by
        unfold queueIds
        rw [hq, List.map_cons]
      rwa [this] at h1
    have htq : t.id ∈ queueIds s := by
      unfold queueIds
      rw [hq, List.map_cons]
      exact List.mem_cons_self _ _
    rw [List.nodup_cons] at h1'
    refine ⟨h1'.2, nodup_keys_setEntry _ _ _ h2, ?_, ?_⟩
    · intro a ha hmem
      have haq : a ∈ queueIds s := by
        unfold queueIds
        rw [hq, List.map_cons]
        exact List.mem_cons_of_mem _ ha
      rcases (mem_keys_setEntry s.runningTasks t.id a _).mp hmem with h | h
      · exact h3 a haq h
      · subst h
        exact h1'.1 ha
    · intro p hp
      rcases mem_setEntry_cases hp with h | h
      · exact h4 p h
      · subst h
        rfl

/-- getNextTasks preserves the dispatch-safety invariant. -/
theorem queueInv_getNextTasks (s : TaskQueue) (count now : ℕ) (hinv : QueueInv s) :
    QueueInv (getNextTasks s count now).1 := by
  induction count generalizing s with
  | zero => exact hinv
  | succ n ih =>
    unfold getNextTasks
    cases hq : s.queue with
    | nil => exact hinv
    | cons t rest => exact ih _ (queueInv_getNextTask s now hinv)

/-- completeTask preserves the dispatch-safety invariant. -/
theorem queueInv_completeTask (s : TaskQueue) (id : String) (r : TaskResultSpec) (now : ℕ)
    (hinv : QueueInv s) : QueueInv (completeTask s id r now) := by
  obtain ⟨h1, h2, h3, h4⟩ := hinv
  unfold completeTask
  cases hg : getEntry s.runningTasks id with
  | none => exact ⟨h1, h2, h3, h4⟩
  | some task =>
    refine ⟨h1, (keys_delEntry_sublist _ _).nodup h2, ?_, ?_⟩
    · intro a ha hmem
      exact h3 a ha ((keys_delEntry_sublist _ _).subset hmem)
    · intro p hp
      exact h4 p ((delEntry_sublist _ _).subset hp)

/-- failTask preserves the dispatch-safety invariant. -/
theorem queueInv_failTask (s : TaskQueue) (id : String) (e : String) (now : ℕ)
    (hinv : QueueInv s) : QueueInv (failTask s id e now) := by
  obtain ⟨h1, h2, h3, h4⟩ := hinv
  unfold failTask
  cases hg : getEntry s.runningTasks id with
  | none => exact ⟨h1, h2, h3, h4⟩
  | some task0 =>
    have hidr : id ∈ runningIds s := mem_keys_of_getEntry_some hg
    have hidq : id ∉ queueIds s := fun hmem => h3 id hmem hidr
    have hid0 : task0.id = id := h4 (id, task0) (getEntry_some_mem hg)
    dsimp only
    split_ifs with hlt
    · have hperm := queueIds_sortQueue_append s.queue
        ({ task0 with retryCount := task0.retryCount + 1, status := TaskStatus.pending, startedAt := none, error := some e })
      have hx : ({ task0 with retryCount := task0.retryCount + 1, status := TaskStatus.pending, startedAt := none, error := some e } : Task).id = id := hid0
      refine ⟨?_, (keys_delEntry_sublist _ _).nodup h2, ?_, ?_⟩
      · refine (hperm.nodup_iff).mpr (List.nodup_append.mpr ⟨h1, List.nodup_singleton _, ?_⟩)
        intro a ha hmem
        rw [List.mem_singleton] at hmem
        subst hmem
        rw [hx] at ha
        exact hidq ha
      · intro a ha hmem
        have hmem' := (keys_delEntry_sublist _ _).subset hmem
        rcases (List.mem_append.mp (hperm.mem_iff.mp ha)) with h | h
        · exact h3 a h hmem'
        · rw [List.mem_singleton] at h
          subst h
          rw [hx] at hmem
          exact not_mem_keys_delEntry _ _ h2 hmem
      · intro p hp
        exact h4 p ((delEntry_sublist _ _).subset hp)
    · refine ⟨h1, (keys_delEntry_sublist _ _).nodup h2, ?_, ?_⟩
      · intro a ha hmem
        exact h3 a ha ((keys_delEntry_sublist _ _).subset hmem)
      · intro p hp
        exact h4 p ((delEntry_sublist _ _).subset hp)

/-- A fresh TaskQueue satisfies the dispatch-safety invariant. -/
theorem queueInv_init : QueueInv initTaskQueue := by
  refine ⟨List.nodup_nil, List.nodup_nil, ?_, ?_⟩
  · intro a ha
    exact absurd ha (List.not_mem_nil a)
  · intro p hp
    exact absurd hp (List.not_mem_nil p)

/-- Every single queue call preserves the dispatch-safety invariant. -/
theorem queueInv_step (s s' : TaskQueue) (h : QueueStep s s') (hinv : QueueInv s) :
    QueueInv s' := by
  cases h with
  | add id spec now hq hr hc => exact queueInv_addTask s id spec now hq hr hinv
  | deq now => exact queueInv_getNextTask s now hinv
  | deqBatch count now => exact queueInv_getNextTasks s count now hinv
  | comp id r now => exact queueInv_completeTask s id r now hinv
  | failStep id e now => exact queueInv_failTask s id e now hinv

/-- A task handed out by getNextTask comes from the pending queue. -/
theorem getNextTask_some_id_mem (s : TaskQueue) (now : ℕ) (t : Task)
    (h : (getNextTask s now).2 = some t) : t.id ∈ queueIds s := by
  unfold getNextTask at h
  cases hq : s.queue with
  | nil =>
    rw [hq] at h
    exact absurd h (by simp)
  | cons t₀ rest =>
    rw [hq] at h
    dsimp only at h
    obtain rfl := (Option.some.inj h).symm
    unfold queueIds
    rw [hq, List.map_cons]
    exact List.mem_cons_self _ _

/-- getNextTask keeps a retired id retired. -/
theorem retired_getNextTask (id : String) (s : TaskQueue) (now : ℕ) (_hinv : QueueInv s)
    (hret : Retired id s) : Retired id (getNextTask s now).1 := by
  obtain ⟨hc, hq, hr⟩ := hret
  unfold getNextTask
  cases hqq : s.queue with
  | nil => exact ⟨hc, hq, hr⟩
  | cons t rest =>
    refine ⟨hc, ?_, ?_⟩
    · intro hmem
      apply hq
      unfold queueIds
      rw [hqq, List.map_cons]
      exact List.mem_cons_of_mem _ hmem
    · intro hmem
      rcases (mem_keys_setEntry _ _ _ _).mp hmem with h | h
      · exact hr h
      · apply hq
        unfold queueIds
        rw [hqq, List.map_cons, h]
        exact List.mem_cons_self _ _

/-- getNextTasks keeps a retired id retired. -/
theorem retired_getNextTasks (id : String) (s : TaskQueue) (count now : ℕ)
    (hinv : QueueInv s) (hret : Retired id s) : Retired id (getNextTasks s count now).1 := by
  induction count generalizing s with
  | zero => exact hret
  | succ n ih =>
    unfold getNextTasks
    cases hq : s.queue with
    | nil => exact hret
    | cons t rest =>
      exact ih _ (queueInv_getNextTask s now hinv) (retired_getNextTask id s now hinv hret)

/-- Every single queue call keeps a retired id retired (uuid freshness keeps
addTask from ever reusing it). -/
theorem retired_step (id : String) (s s' : TaskQueue) (hstep : QueueStep s s')
    (hinv : QueueInv s) (hret : Retired id s) : Retired id s' := by
  obtain ⟨hc, hq, hr⟩ := hret
  cases hstep with
  | add id' spec now hq' hr' hc' =>
    refine ⟨hc, ?_, hr⟩
    intro hmem
    rcases List.mem_append.mp ((queueIds_addTask_perm s id' spec now).mem_iff.mp hmem) with h | h
    · exact hq h
    · rw [List.mem_singleton] at h
      subst h
      exact hc' hc
  | deq now => exact retired_getNextTask id s now hinv ⟨hc, hq, hr⟩
  | deqBatch count now => exact retired_getNextTasks id s count now hinv ⟨hc, hq, hr⟩
  | comp id2 r now =>
    unfold completeTask
    cases hg : getEntry s.runningTasks id2 with
    | none => exact ⟨hc, hq, hr⟩
    | some task =>
      refine ⟨(mem_keys_setEntry _ _ _ _).mpr (Or.inl hc), hq, ?_⟩
      intro hmem
      exact hr ((keys_delEntry_sublist _ _).subset hmem)
  | failStep id2 e now =>
    unfold failTask
    cases hg : getEntry s.runningTasks id2 with
    | none => exact ⟨hc, hq, hr⟩
    | some task0 =>
      have hid0 : task0.id = id2 := hinv.2.2.2 (id2, task0) (getEntry_some_mem hg)
      have hid2r : id2 ∈ runningIds s := mem_keys_of_getEntry_some hg
      have hne : id ≠ id2 := fun h => hr (h ▸ hid2r)
      dsimp only
      split_ifs with hlt
      · refine ⟨hc, ?_, ?_⟩
        · intro hmem
          have hperm := queueIds_sortQueue_append s.queue
            ({ task0 with retryCount := task0.retryCount + 1, status := TaskStatus.pending, startedAt := none, error := some e })
          rcases List.mem_append.mp (hperm.mem_iff.mp hmem) with h | h
          · exact hq h
          · rw [List.mem_singleton] at h
            have h' : id = id2 := by
              rw [h]
              exact hid0
            exact hne h'
        · intro hmem
          exact hr ((keys_delEntry_sublist _ _).subset hmem)
      · refine ⟨(mem_keys_setEntry _ _ _ _).mpr (Or.inl hc), hq, ?_⟩
        intro hmem
        exact hr ((keys_delEntry_sublist _ _).subset hmem)

/-- Along any call sequence, the invariant persists and a retired id stays
retired. -/
theorem retired_steps (id : String) (s s' : TaskQueue)
    (h : Relation.ReflTransGen QueueStep s s') (hinv : QueueInv s) (hret : Retired id s) :
    QueueInv s' ∧ Retired id s' := by
  induction h with
  | refl => exact ⟨hinv, hret⟩
  | tail hab hbc ih => exact ⟨queueInv_step _ _ hbc ih.1, retired_step id _ _ hbc ih.1 ih.2⟩

/-- C9: in every reachable TaskQueue state, pending ids are pairwise
distinct, no id is simultaneously pending and running, and dequeue is the
move that marks the head running, stamps startedAt, and registers it in the
running map — so a task can never be handed to two dispatches. -/
theorem C9_no_double_dispatch (s : TaskQueue) (h : QueueReachable s) :
    QueueInv s ∧
    (∀ (now : ℕ) (t : Task), (getNextTask s now).2 = some t →
      t.status = TaskStatus.running ∧ t.startedAt = some now ∧
      getEntry (getNextTask s now).1.runningTasks t.id = some t) := by
  constructor
  · unfold QueueReachable at h
    induction h with
    | refl => exact queueInv_init
    | tail hab hbc ih => exact queueInv_step _ _ hbc ih
  · intro now t ht
    unfold getNextTask at ht ⊢
    cases hq : s.queue with
    | nil =>
      rw [hq] at ht
      exact absurd ht (by simp)
    | cons t₀ rest =>
      rw [hq] at ht
      dsimp only at ht ⊢
      obtain rfl := (Option.some.inj ht).symm
      refine ⟨rfl, rfl, ?_⟩
      rw [getEntry_setEntry, if_pos rfl]

/-- C9 witness: the invariant holds in the concrete reachable state obtained
by one addTask call on a fresh queue. -/
theorem C9_no_double_dispatch_witness : QueueInv (addTask initTaskQueue "a" c9Spec 0) :=
  (C9_no_double_dispatch (addTask initTaskQueue "a" c9Spec 0)
    (Relation.ReflTransGen.single
      (QueueStep.add initTaskQueue "a" c9Spec 0
        (by simp [initTaskQueue, queueIds])
        (by simp [initTaskQueue, runningIds])
        (by simp [initTaskQueue, completedIds])))).1

/-- C2 (counterexample): a running task with retryCount 0 and maxRetries 1
satisfies the claim's guard retryCount < maxRetries, yet failTask does not
re-queue it — the pending queue stays empty and the task is terminally
failed in the completed map. -/
theorem C2_counterexample :
    c2Task.retryCount < c2Task.maxRetries ∧
    getEntry c2State.runningTasks "t1" = some c2Task ∧
    (failTask c2State "t1" "boom" 5).queue = [] ∧
    (failTask c2State "t1" "boom" 5).runningTasks = [] ∧
    getEntry (failTask c2State "t1" "boom" 5).completedTasks "t1" =
      some { taskId := "t1", success := false, error := some "boom", duration := 4 } := by
  decide

/-- C2 (amended): failTask on a running task first increments retryCount and
requeues exactly when the incremented count is still below maxRetries — the
task returns to pending with retryCount + 1, startedAt cleared and the error
recorded; otherwise it is terminally failed: removed from running, kept out
of the pending queue, recorded in the completed map with the error, and its
id is never returned by any later dequeue. -/
theorem C2_failTask_semantics (s : TaskQueue) (id : String) (t : Task) (e : String)
    (now : ℕ) (hinv : QueueInv s) (hrun : getEntry s.runningTasks id = some t) :
    (t.retryCount + 1 < t.maxRetries →
      ((failTask s id e now).queue = sortQueue (s.queue ++ [{ t with retryCount := t.retryCount + 1, status := TaskStatus.pending, startedAt := none, error := some e }]) ∧
       (failTask s id e now).runningTasks = delEntry s.runningTasks id ∧
       (failTask s id e now).completedTasks = s.completedTasks)) ∧
    (¬ t.retryCount + 1 < t.maxRetries →
      ((failTask s id e now).queue = s.queue ∧
       (failTask s id e now).runningTasks = delEntry s.runningTasks id ∧
       getEntry (failTask s id e now).completedTasks id =
         some { taskId := id, success := false, error := some e, duration := (now : ℤ) - ((t.startedAt.getD t.createdAt : ℕ) : ℤ) } ∧
       Retired id (failTask s id e now) ∧
       ∀ s2 : TaskQueue, Relation.ReflTransGen QueueStep (failTask s id e now) s2 →
         ∀ (now2 : ℕ) (t2 : Task), (getNextTask s2 now2).2 = some t2 → t2.id ≠ id)) := by
  have hidr : id ∈ runningIds s := mem_keys_of_getEntry_some hrun
  have hidq : id ∉ queueIds s := fun hmem => hinv.2.2.1 id hmem hidr
  constructor
  · intro hlt
    unfold failTask
    rw [hrun]
    dsimp only
    rw [if_pos hlt]
    exact ⟨rfl, rfl, rfl⟩
  · intro hge
    have hret : Retired id (failTask s id e now) := by
      unfold failTask
      rw [hrun]
      dsimp only
      rw [if_neg hge]
      exact ⟨(mem_keys_setEntry _ _ _ _).mpr (Or.inr rfl), hidq,
        not_mem_keys_delEntry _ _ hinv.2.1⟩
    have hinv' : QueueInv (failTask s id e now) := queueInv_failTask s id e now hinv
    refine ⟨?_, ?_, ?_, hret, ?_⟩
    · unfold failTask
      rw [hrun]
      dsimp only
      rw [if_neg hge]
    · unfold failTask
      rw [hrun]
      dsimp only
      rw [if_neg hge]
    · unfold failTask
      rw [hrun]
      dsimp only
      rw [if_neg hge]
      rw [getEntry_setEntry, if_pos rfl]
    · intro s2 hsteps now2 t2 ht2 heq
      have hcmb := retired_steps id _ s2 hsteps hinv' hret
      have hmem := getNextTask_some_id_mem s2 now2 t2 ht2
      exact hcmb.2.2.1 (heq ▸ hmem)

/-- C2 witness: with two retries left the failed task is requeued as
pending with the incremented count, the cleared start stamp and the error. -/
theorem C2_failTask_semantics_witness :
    (failTask c2wState "b" "err" 7).queue = sortQueue (c2wState.queue ++ [{ c2wTask with retryCount := c2wTask.retryCount + 1, status := TaskStatus.pending, startedAt := none, error := some "err" }]) ∧
    (failTask c2wState "b" "err" 7).runningTasks = delEntry c2wState.runningTasks "b" ∧
    (failTask c2wState "b" "err" 7).completedTasks = c2wState.completedTasks :=
  (C2_failTask_semantics c2wState "b" c2wTask "err" 7
    (by
      refine ⟨List.nodup_nil, List.nodup_singleton _, ?_, ?_⟩
      · intro a ha
        exact absurd ha (List.not_mem_nil a)
      · intro p hp
        have hp' : p = ("b", c2wTask) := by simpa [c2wState] using hp
        subst hp'
        rfl)
    (by decide)).1 (by decide)

/-- C10: completeTask and failTask with an id not in the running map leave
the whole queue state — pending queue, running map, completed map and the
duration statistics — unchanged, raising no error. -/
theorem C10_unknown_id_noop (s : TaskQueue) (id : String) (r : TaskResultSpec)
    (e : String) (now : ℕ) (h : getEntry s.runningTasks id = none) :
    completeTask s id r now = s ∧ failTask s id e now = s := by
  unfold completeTask failTask
  rw [h]
  exact ⟨rfl, rfl⟩

/-- C10 witness: an unknown id on a fresh queue is a no-op for both calls. -/
theorem C10_unknown_id_noop_witness :
    completeTask initTaskQueue "x" ⟨true, none⟩ 0 = initTaskQueue ∧
    failTask initTaskQueue "x" "err" 0 = initTaskQueue :=
  C10_unknown_id_noop initTaskQueue "x" ⟨true, none⟩ "err" 0 rfl

end DealMonitor
